import Mathlib

/-!
Verification of the local recipe and shopping-list management subsystem of an
MCP recipe server.  The Python sources embedded here are:

  src/tools/local/categories.py  (ingredient classification)
  src/tools/local/tools.py       (tool handlers: save recipe, shopping lists, listing, deletion)
  src/tools/local/config.py      (recipes-directory configuration)
  src/tools/local/pdf_recipe.py  (recipe document rendering boundary)
  src/tools/local/pdf_shopping.py (shopping-list rendering boundary)

Filesystem state, the meal-fetching collaborator and the rendering
collaborator are made explicit.  Python string primitives (lower, strip,
substring containment, single-character replace, comparison) are modelled by
executable functions on character lists, since the inputs involved are ASCII;
the Python dict used during aggregation is an insertion-ordered association
list, exactly mirroring CPython dict semantics.
-/

set_option maxHeartbeats 1000000

namespace MealDB

/-! # String helpers modelling Python primitives -/

/-- Models the Python expression `needle == hay[:len(needle)]`: the first
argument is a character-wise leading match of the second. -/
def leadMatch : List Char → List Char → Bool
  | [], _ => true
  | _ :: _, [] => false
  | a :: as, b :: bs => a == b && leadMatch as bs

/-- Models Python substring containment on character lists. -/
def containsSeq (needle : List Char) : List Char → Bool
  | [] => leadMatch needle []
  | c :: cs => leadMatch needle (c :: cs) || containsSeq needle cs

/-- Models the Python expression `needle in hay` for strings. -/
def pyIn (needle hay : String) : Bool :=
  containsSeq needle.toList hay.toList

/-- Models the Python method lower() (ASCII case folding, which coincides
with Python on the ASCII inputs appearing in this code base). -/
def pyLower (s : String) : String :=
  String.mk (s.toList.map Char.toLower)

/-- Models the Python method strip(): remove leading and trailing
whitespace. -/
def pyStrip (s : String) : String :=
  String.mk (((s.toList.dropWhile Char.isWhitespace).reverse.dropWhile
    Char.isWhitespace).reverse)

/-- Models the Python method replace(a, b) for single-character pattern and
replacement, the only form used by the code (replacing / and backslash in a
meal name). -/
def replaceChar (a b : Char) (s : String) : String :=
  String.mk (s.toList.map (fun c => if c == a then b else c))

/-- Models the Python method startswith. -/
def pyStartsWith (s pre : String) : Bool :=
  leadMatch pre.toList s.toList

/-- Models the Python method endswith. -/
def pyEndsWith (s suf : String) : Bool :=
  leadMatch suf.toList.reverse s.toList.reverse

/-- Lexicographic comparison of character lists by code point, the order
Python uses to sort strings. -/
def charListLe : List Char → List Char → Bool
  | [], _ => true
  | _ :: _, [] => false
  | a :: as, b :: bs => if a = b then charListLe as bs else decide (a < b)

/-- Models Python string comparison a <= b. -/
def strLe (a b : String) : Bool :=
  charListLe a.toList b.toList

/-- Insertion step of the sort modelling the Python builtin sorted(). -/
def insertSortedBy {α : Type} (le : α → α → Bool) (x : α) : List α → List α
  | [] => [x]
  | y :: ys => if le x y then x :: y :: ys else y :: insertSortedBy le x ys

/-- Models the Python builtin sorted() with the given comparison. -/
def sortBy {α : Type} (le : α → α → Bool) (l : List α) : List α :=
  l.foldr (insertSortedBy le) []

/-- Models sorted() on lists of strings. -/
def sortStrings (l : List String) : List String :=
  sortBy strLe l

theorem perm_insertSortedBy {α : Type} (le : α → α → Bool) (x : α) (l : List α) :
    List.Perm (insertSortedBy le x l) (x :: l) := by
  induction l with
  | nil => rfl
  | cons y ys ih =>
      by_cases h : le x y = true
      · simp [insertSortedBy, h]
      · simp only [insertSortedBy, h]
        simp only [Bool.not_eq_true] at h
        simp only [h, if_neg, Bool.false_eq_true]
        exact ((ih.cons y).trans (List.Perm.swap x y ys))

theorem perm_sortBy {α : Type} (le : α → α → Bool) (l : List α) :
    List.Perm (sortBy le l) l := by
  induction l with
  | nil => rfl
  | cons y ys ih =>
      exact (perm_insertSortedBy le y (sortBy le ys)).trans (ih.cons y)

/-! # categories.py -/

/-- The INGREDIENT_CATEGORIES table from categories.py.  The Python source is
a dict literal in which the keys bean, salt and pepper are written twice; by
CPython dict-literal semantics a repeated key keeps the position of its first
occurrence and the value of its last occurrence.  The list below is exactly
the resulting runtime dict in its iteration order: pepper (first written
under Produce) carries the value Spices, bean (first written under Produce)
carries Pantry & Dry, and salt (first written under Pantry) carries
Spices. -/
def INGREDIENT_CATEGORIES : List (String × String) :=
  [("tomato", "Produce"), ("lettuce", "Produce"), ("onion", "Produce"), ("garlic", "Produce"),
   ("carrot", "Produce"), ("potato", "Produce"), ("broccoli", "Produce"), ("spinach", "Produce"),
   ("pepper", "Spices"), ("cucumber", "Produce"), ("mushroom", "Produce"), ("apple", "Produce"),
   ("banana", "Produce"), ("lemon", "Produce"), ("lime", "Produce"), ("orange", "Produce"),
   ("celery", "Produce"), ("zucchini", "Produce"), ("pumpkin", "Produce"), ("bean", "Pantry & Dry"),
   ("chicken", "Meat & Seafood"), ("beef", "Meat & Seafood"), ("pork", "Meat & Seafood"),
   ("fish", "Meat & Seafood"), ("salmon", "Meat & Seafood"), ("tuna", "Meat & Seafood"),
   ("shrimp", "Meat & Seafood"), ("cod", "Meat & Seafood"), ("turkey", "Meat & Seafood"),
   ("lamb", "Meat & Seafood"), ("bacon", "Meat & Seafood"), ("sausage", "Meat & Seafood"),
   ("milk", "Dairy & Eggs"), ("cheese", "Dairy & Eggs"), ("yogurt", "Dairy & Eggs"),
   ("butter", "Dairy & Eggs"), ("cream", "Dairy & Eggs"), ("egg", "Dairy & Eggs"),
   ("mozzarella", "Dairy & Eggs"), ("cheddar", "Dairy & Eggs"), ("parmesan", "Dairy & Eggs"),
   ("flour", "Pantry & Dry"), ("rice", "Pantry & Dry"), ("pasta", "Pantry & Dry"),
   ("bread", "Pantry & Dry"), ("sugar", "Pantry & Dry"), ("salt", "Spices"),
   ("oil", "Pantry & Dry"), ("vinegar", "Pantry & Dry"), ("sauce", "Pantry & Dry"),
   ("honey", "Pantry & Dry"), ("jam", "Pantry & Dry"), ("cereal", "Pantry & Dry"),
   ("lentil", "Pantry & Dry"),
   ("paprika", "Spices"), ("cumin", "Spices"), ("cinnamon", "Spices"), ("ginger", "Spices"),
   ("turmeric", "Spices"), ("basil", "Spices"), ("oregano", "Spices"), ("thyme", "Spices"),
   ("chili", "Spices"), ("mustard", "Spices")]

/-- The loop body of get_ingredient_category: scan the table in iteration
order and return the category paired with the first key contained in the
lowered ingredient name. -/
def lookupCategory : List (String × String) → String → String
  | [], _ => "Other"
  | (key, category) :: rest, ing =>
      if pyIn key ing then category else lookupCategory rest ing

/-- get_ingredient_category from categories.py: lower-case the input, then
first-match scan of INGREDIENT_CATEGORIES, defaulting to Other. -/
def get_ingredient_category (ingredient : String) : String :=
  lookupCategory INGREDIENT_CATEGORIES (pyLower ingredient)

/-- Statement of the classifier contract in the words of the spec: the
category of the first table entry whose key is a substring of the lowered
input, and Other when no entry matches. -/
def classifySpec (ingredient : String) : String :=
  match INGREDIENT_CATEGORIES.find? (fun p => pyIn p.1 (pyLower ingredient)) with
  | some p => p.2
  | none => "Other"

theorem lookupCategory_eq_find (table : List (String × String)) (ing : String) :
    lookupCategory table ing =
      match table.find? (fun p => pyIn p.1 ing) with
      | some p => p.2
      | none => "Other" := by
  induction table with
  | nil => rfl
  | cons hd tl ih =>
      obtain ⟨key, category⟩ := hd
      by_cases h : pyIn key ing
      · simp [lookupCategory, List.find?, h]
      · simp only [lookupCategory, List.find?, h, if_neg]
        simp only [Bool.not_eq_true] at h
        simp [h, ih]

/-- C6: get_ingredient_category lower-cases the input and returns the
category of the first table entry, in iteration order, whose key is a
substring of the input, defaulting to Other; in particular Fresh Tomatoes
classifies as Produce, Ground Beef as Meat & Seafood, and an unknown
ingredient as Other. -/
theorem get_ingredient_category_first_match :
    (∀ ingredient : String, get_ingredient_category ingredient = classifySpec ingredient)
    ∧ get_ingredient_category "Fresh Tomatoes" = "Produce"
    ∧ get_ingredient_category "Ground Beef" = "Meat & Seafood"
    ∧ get_ingredient_category "unknown XYZ ingredient" = "Other" := by
  refine ⟨fun ingredient => lookupCategory_eq_find _ _, ?_, ?_, ?_⟩
  · decide
  · decide
  · decide

/-! # Meal records and ingredient aggregation (tools.py, create_shopping_list) -/

/-- A meal record fetched from TheMealDB.  The fields strIngredient1 to
strIngredient20 and strMeasure1 to strMeasure20 that the handlers read with
meal.get(..., "") are modelled as the ordered list of the twenty
(ingredient, measure) slot pairs, with empty strings for absent keys.
Optional fields read with a non-empty default are Option String. -/
structure Meal where
  strMeal : Option String
  strCategory : Option String
  slots : List (String × String)
deriving Repr, DecidableEq

/-- The expression meal.get(strMeal, Unknown) used when the shopping-list
handler records recipe names. -/
def mealDisplayName (m : Meal) : String :=
  m.strMeal.getD "Unknown"

/-- One value of the all_ingredients dict built by create_shopping_list:
original spelling, the accumulated measure strings and the accumulated
recipe attributions. -/
structure IngredientEntry where
  original : String
  measures : List String
  recipes : List String
deriving Repr, DecidableEq

/-- The normalized dict key of a slot: strip then lower, provided the
ingredient is non-blank.  The Python guard `ingredient and ingredient.strip()`
is equivalent to `ingredient.strip() != ""` because strip of the empty string
is empty. -/
def slotKey (slot : String × String) : Option String :=
  if pyStrip slot.1 ≠ "" then some (pyLower (pyStrip slot.1)) else none

/-- The measure contributed by a slot: the stripped measure when non-blank,
mirroring the guard `if measure.strip()`. -/
def slotMeasure (slot : String × String) : Option String :=
  if pyStrip slot.2 ≠ "" then some (pyStrip slot.2) else none

/-- One dict update of the aggregation loop: create the entry on a new key
(at the end, preserving CPython dict insertion order), then append the
non-blank measure and the recipe name. -/
def addOccurrence (key original mealName : String) (measOpt : Option String) :
    List (String × IngredientEntry) → List (String × IngredientEntry)
  | [] => [(key, ⟨original, measOpt.toList, [mealName]⟩)]
  | (k, e) :: rest =>
      if k = key then
        (k, ⟨e.original, e.measures ++ measOpt.toList, e.recipes ++ [mealName]⟩) :: rest
      else (k, e) :: addOccurrence key original mealName measOpt rest

/-- Processing of one (ingredient, measure) slot by the aggregation loop:
blank ingredients are skipped. -/
def addSlot (mealName : String) (st : List (String × IngredientEntry))
    (slot : String × String) : List (String × IngredientEntry) :=
  match slotKey slot with
  | none => st
  | some key => addOccurrence key (pyStrip slot.1) mealName (slotMeasure slot) st

/-- Processing of all slots of one fetched meal. -/
def addMealIngredients (st : List (String × IngredientEntry)) (m : Meal) :
    List (String × IngredientEntry) :=
  m.slots.foldl (addSlot (mealDisplayName m)) st

/-- The all_ingredients dict produced by the fetch loop of
create_shopping_list over an ordered sequence of fetched meals. -/
def aggregateIngredients (meals : List Meal) : List (String × IngredientEntry) :=
  meals.foldl addMealIngredients []

/-- Dict lookup in the insertion-ordered association list. -/
def lookupEntry (key : String) : List (String × IngredientEntry) → Option IngredientEntry
  | [] => none
  | (k, e) :: rest => if k = key then some e else lookupEntry key rest

/-- The measures and recipes components of an optional entry; the original
spelling is irrelevant to the aggregation bookkeeping proved below. -/
def entryData (o : Option IngredientEntry) : Option (List String × List String) :=
  o.map (fun e => (e.measures, e.recipes))

/-- Measure strings a list of slots contributes to a given key, in slot
order. -/
def slotsMeasuresFor (key : String) (slots : List (String × String)) : List String :=
  slots.filterMap (fun slot =>
    match slotKey slot with
    | some k => if k = key then slotMeasure slot else none
    | none => none)

/-- Number of occurrences of a key among a list of slots. -/
def slotsCountFor (key : String) (slots : List (String × String)) : Nat :=
  (slots.filter (fun slot => decide (slotKey slot = some key))).length

/-- Concatenation, over the meal sequence, of the measures contributed to a
key: the spec notion of combined measure list. -/
def expectedMeasures (key : String) (meals : List Meal) : List String :=
  (meals.map (fun m => slotsMeasuresFor key m.slots)).flatten

/-- Concatenation, over the meal sequence, of one attribution per occurrence
of the key: the spec notion of the recipe-attribution list. -/
def expectedRecipes (key : String) (meals : List Meal) : List String :=
  (meals.map (fun m => List.replicate (slotsCountFor key m.slots) (mealDisplayName m))).flatten

/-- The render-time attribution of an entry: pdf_shopping.py builds
`set(ing_data[recipes])`.  A Python set is unordered, so only its
cardinality is meaningful; dedup is used as its concrete stand-in. -/
def renderedAttribution (e : IngredientEntry) : List String :=
  e.recipes.dedup

/-- Extension of optional entry data by further measures and attributions:
the shape in which one aggregation step acts on a key. -/
def combineE : Option (List String × List String) → List String → List String →
    Option (List String × List String)
  | some (ms, rs), ms2, rs2 => some (ms ++ ms2, rs ++ rs2)
  | none, ms2, rs2 => if rs2 = [] then none else some (ms2, rs2)

theorem lookupEntry_addOccurrence (key k0 orig name : String) (mo : Option String)
    (st : List (String × IngredientEntry)) :
    entryData (lookupEntry key (addOccurrence k0 orig name mo st)) =
      if k0 = key then
        match entryData (lookupEntry key st) with
        | some (ms, rs) => some (ms ++ mo.toList, rs ++ [name])
        | none => some (mo.toList, [name])
      else entryData (lookupEntry key st) := by
  induction st with
  | nil =>
      by_cases h : k0 = key
      · simp [addOccurrence, lookupEntry, entryData, h]
      · simp [addOccurrence, lookupEntry, entryData, h]
  | cons hd tl ih =>
      obtain ⟨k, e⟩ := hd
      by_cases hk : k = k0
      · subst hk
        by_cases h : k = key
        · simp [addOccurrence, lookupEntry, entryData, h]
        · simp [addOccurrence, lookupEntry, entryData, h]
      · by_cases h : k = key
        · subst h
          have hne : ¬ k0 = k := fun hh => hk hh.symm
          simp [addOccurrence, lookupEntry, entryData, hk, hne]
        · simp [addOccurrence, lookupEntry, h, hk, ih]

theorem slotsMeasuresFor_nil_of_count_zero (key : String) (slots : List (String × String))
    (h : slotsCountFor key slots = 0) : slotsMeasuresFor key slots = [] := by
  induction slots with
  | nil => rfl
  | cons s rest ih =>
      by_cases hs : slotKey s = some key
      · exfalso
        simp [slotsCountFor, List.filter_cons, hs] at h
      · have hrest : slotsCountFor key rest = 0 := by
          simpa [slotsCountFor, List.filter_cons, hs] using h
        have hnone : (match slotKey s with
            | some k => if k = key then slotMeasure s else none
            | none => (none : Option String)) = none := by
          cases hk : slotKey s with
          | none => rfl
          | some k =>
              have : ¬ k = key := by
                intro hkk
                exact hs (by simpa [hkk] using hk)
              simp [this]
        simp [slotsMeasuresFor, List.filterMap_cons]
        rw [hnone]
        simpa [slotsMeasuresFor] using ih hrest

theorem combineE_combineE (o : Option (List String × List String))
    (m1 r1 m2 r2 : List String) (hsafe : r1 = [] → m1 = []) :
    combineE (combineE o m1 r1) m2 r2 = combineE o (m1 ++ m2) (r1 ++ r2) := by
  cases o with
  | some p =>
      obtain ⟨ms, rs⟩ := p
      simp [combineE, List.append_assoc]
  | none =>
      by_cases h1 : r1 = []
      · subst h1
        simp [combineE, hsafe rfl]
      · have h12 : ¬ (r1 ++ r2 = []) := by
          intro h
          exact h1 (List.append_eq_nil.mp h).1
        by_cases h2 : r2 = []
        · subst h2
          simp [combineE, h1, h12]
        · simp [combineE, h1, h12]

theorem lookupEntry_foldl_addSlot (name key : String) (slots : List (String × String)) :
    ∀ st : List (String × IngredientEntry),
      entryData (lookupEntry key (slots.foldl (addSlot name) st)) =
        combineE (entryData (lookupEntry key st)) (slotsMeasuresFor key slots)
          (List.replicate (slotsCountFor key slots) name) := by
  induction slots with
  | nil =>
      intro st
      cases h : entryData (lookupEntry key st) with
      | none => simp [slotsMeasuresFor, slotsCountFor, combineE, h]
      | some p => obtain ⟨ms, rs⟩ := p; simp [slotsMeasuresFor, slotsCountFor, combineE, h]
  | cons s rest ih =>
      intro st
      rw [List.foldl_cons, ih (addSlot name st s)]
      cases hk : slotKey s with
      | none =>
          have h1 : addSlot name st s = st := by simp [addSlot, hk]
          have h2 : slotsMeasuresFor key (s :: rest) = slotsMeasuresFor key rest := by
            simp [slotsMeasuresFor, List.filterMap_cons, hk]
          have h3 : slotsCountFor key (s :: rest) = slotsCountFor key rest := by
            simp [slotsCountFor, List.filter_cons, hk]
          rw [h1, h2, h3]
      | some k0 =>
          by_cases hkey : k0 = key
          · subst hkey
            have h1 : entryData (lookupEntry k0 (addSlot name st s)) =
                match entryData (lookupEntry k0 st) with
                | some (ms, rs) => some (ms ++ (slotMeasure s).toList, rs ++ [name])
                | none => some ((slotMeasure s).toList, [name]) := by
              simp only [addSlot, hk]
              simpa using lookupEntry_addOccurrence k0 k0 (pyStrip s.1) name (slotMeasure s) st
            have h2 : slotsMeasuresFor k0 (s :: rest) =
                (slotMeasure s).toList ++ slotsMeasuresFor k0 rest := by
              cases hms : slotMeasure s with
              | none => simp [slotsMeasuresFor, List.filterMap_cons, hk, hms]
              | some v => simp [slotsMeasuresFor, List.filterMap_cons, hk, hms]
            have h3 : slotsCountFor k0 (s :: rest) = slotsCountFor k0 rest + 1 := by
              simp [slotsCountFor, List.filter_cons, hk]
            rw [h1, h2, h3]
            cases hst : entryData (lookupEntry k0 st) with
            | none =>
                simp [combineE, List.replicate_succ]
            | some p =>
                obtain ⟨ms, rs⟩ := p
                simp [combineE, List.replicate_succ, List.append_assoc]
          · have h1 : entryData (lookupEntry key (addSlot name st s)) =
                entryData (lookupEntry key st) := by
              simp only [addSlot, hk]
              simpa [hkey] using
                lookupEntry_addOccurrence key k0 (pyStrip s.1) name (slotMeasure s) st
            have h2 : slotsMeasuresFor key (s :: rest) = slotsMeasuresFor key rest := by
              simp [slotsMeasuresFor, List.filterMap_cons, hk, hkey]
            have h3 : slotsCountFor key (s :: rest) = slotsCountFor key rest := by
              have : ¬ (slotKey s = some key) := by
                rw [hk]
                intro h
                exact hkey (Option.some.inj h)
              simp [slotsCountFor, List.filter_cons, this]
            rw [h1, h2, h3]

theorem lookupEntry_aggregate (key : String) (meals : List Meal) :
    ∀ st : List (String × IngredientEntry),
      entryData (lookupEntry key (meals.foldl addMealIngredients st)) =
        combineE (entryData (lookupEntry key st)) (expectedMeasures key meals)
          (expectedRecipes key meals) := by
  induction meals with
  | nil =>
      intro st
      cases h : entryData (lookupEntry key st) with
      | none => simp [expectedMeasures, expectedRecipes, combineE, h]
      | some p => obtain ⟨ms, rs⟩ := p; simp [expectedMeasures, expectedRecipes, combineE, h]
  | cons m rest ih =>
      intro st
      rw [List.foldl_cons, ih (addMealIngredients st m)]
      have h1 : entryData (lookupEntry key (addMealIngredients st m)) =
          combineE (entryData (lookupEntry key st)) (slotsMeasuresFor key m.slots)
            (List.replicate (slotsCountFor key m.slots) (mealDisplayName m)) :=
        lookupEntry_foldl_addSlot (mealDisplayName m) key m.slots st
      rw [h1, combineE_combineE]
      · simp [expectedMeasures, expectedRecipes]
      · intro hrep
        have hc : slotsCountFor key m.slots = 0 := by
          by_contra hc
          exact hc (by simpa using congrArg List.length hrep)
        exact slotsMeasuresFor_nil_of_count_zero key m.slots hc

theorem keys_addOccurrence (key orig name : String) (mo : Option String)
    (st : List (String × IngredientEntry)) :
    (addOccurrence key orig name mo st).map Prod.fst =
      if key ∈ st.map Prod.fst then st.map Prod.fst else st.map Prod.fst ++ [key] := by
  induction st with
  | nil => simp [addOccurrence]
  | cons hd tl ih =>
      obtain ⟨k, e⟩ := hd
      by_cases hk : k = key
      · subst hk
        simp [addOccurrence]
      · have hne : ¬ key = k := fun hh => hk hh.symm
        by_cases hmem : key ∈ tl.map Prod.fst
        · simp [addOccurrence, hk, hne, ih, hmem]
        · simp [addOccurrence, hk, hne, ih, hmem]

theorem nodupKeys_addSlot (name : String) (slot : String × String)
    (st : List (String × IngredientEntry)) (h : (st.map Prod.fst).Nodup) :
    ((addSlot name st slot).map Prod.fst).Nodup := by
  cases hk : slotKey slot with
  | none => simpa [addSlot, hk] using h
  | some key =>
      simp only [addSlot, hk]
      rw [keys_addOccurrence]
      by_cases hmem : key ∈ st.map Prod.fst
      · simpa [hmem] using h
      · simp only [hmem, if_neg, not_false_iff]
        simp [List.nodup_append, h, hmem]

theorem nodupKeys_foldl_addSlot (name : String) (slots : List (String × String)) :
    ∀ st : List (String × IngredientEntry), (st.map Prod.fst).Nodup →
      ((slots.foldl (addSlot name) st).map Prod.fst).Nodup := by
  induction slots with
  | nil => intro st h; simpa using h
  | cons s rest ih =>
      intro st h
      rw [List.foldl_cons]
      exact ih _ (nodupKeys_addSlot name s st h)

theorem nodupKeys_aggregate (meals : List Meal) :
    ((aggregateIngredients meals).map Prod.fst).Nodup := by
  suffices h : ∀ st : List (String × IngredientEntry), (st.map Prod.fst).Nodup →
      ((meals.foldl addMealIngredients st).map Prod.fst).Nodup by
    exact h [] (by simp)
  induction meals with
  | nil => intro st hst; simpa using hst
  | cons m rest ih =>
      intro st hst
      rw [List.foldl_cons]
      exact ih _ (nodupKeys_foldl_addSlot (mealDisplayName m) m.slots st hst)

theorem dedup_of_all_eq {α : Type} [DecidableEq α] (a : α) :
    ∀ l : List α, l ≠ [] → (∀ x ∈ l, x = a) → l.dedup = [a] := by
  intro l
  induction l with
  | nil => intro h; exact absurd rfl h
  | cons b rest ih =>
      intro _ hall
      have hb : b = a := hall b (List.mem_cons_self b rest)
      subst hb
      cases hrest : rest with
      | nil => simp
      | cons c cs =>
          subst hrest
          have hmem : b ∈ c :: cs := by
            have hc : c = b := hall c (by simp)
            simp [hc]
          rw [List.dedup_cons_of_mem hmem]
          exact ih (by simp) (fun x hx => hall x (List.mem_cons_of_mem _ hx))

/-- C5: for every ordered sequence of fetched recipes, the aggregation loop
of create_shopping_list produces exactly one entry per normalized
(stripped, lowered) ingredient key; the entry holds the concatenation of all
non-blank stripped measures in occurrence order with duplicates kept, and one
recipe attribution per occurrence; attribution is deduplicated only at
render time, so aggregating the same recipe twice doubles the measure list
while the rendered attribution set has exactly one element. -/
theorem create_shopping_list_aggregation (meals : List Meal) (key : String) :
    ((aggregateIngredients meals).map Prod.fst).Nodup
    ∧ (∀ e, lookupEntry key (aggregateIngredients meals) = some e →
        e.measures = expectedMeasures key meals ∧ e.recipes = expectedRecipes key meals)
    ∧ (∀ (m : Meal) (e : IngredientEntry),
        lookupEntry key (aggregateIngredients [m, m]) = some e →
        e.measures.length = 2 * (slotsMeasuresFor key m.slots).length
        ∧ renderedAttribution e = [mealDisplayName m]) := by
  have hmain : ∀ (ms : List Meal) (e : IngredientEntry),
      lookupEntry key (aggregateIngredients ms) = some e →
      e.measures = expectedMeasures key ms ∧ e.recipes = expectedRecipes key ms := by
    intro ms e he
    have h := lookupEntry_aggregate key ms []
    rw [aggregateIngredients] at he
    rw [he] at h
    simp only [lookupEntry, entryData, Option.map] at h
    by_cases hr : expectedRecipes key ms = []
    · simp [combineE, hr] at h
    · simp only [combineE, hr, if_neg, not_false_iff, Option.some.injEq,
        Prod.mk.injEq] at h
      exact h
  refine ⟨nodupKeys_aggregate meals, hmain meals, ?_⟩
  intro m e he
  obtain ⟨hm, hr⟩ := hmain [m, m] e he
  constructor
  · rw [hm]
    simp [expectedMeasures, two_mul]
  · have hexp : expectedRecipes key [m, m] ≠ [] := by
      intro hc
      have h := lookupEntry_aggregate key [m, m] []
      rw [aggregateIngredients] at he
      rw [he] at h
      simp [lookupEntry, entryData, combineE, hc] at h
    have hnonempty : e.recipes ≠ [] := by
      rw [hr]
      exact hexp
    have hall : ∀ x ∈ e.recipes, x = mealDisplayName m := by
      intro x hx
      rw [hr] at hx
      simp only [expectedRecipes, List.map_cons, List.map_nil, List.flatten,
        List.mem_append, List.mem_replicate, List.append_nil] at hx
      rcases hx with h1 | h1
      · exact h1.2
      · exact h1.2
    exact dedup_of_all_eq (mealDisplayName m) e.recipes hnonempty hall

/-- First sample meal from the repository test suite. -/
def pastaMeal : Meal :=
  { strMeal := some "Pasta", strCategory := none,
    slots := [("Spaghetti", "400g"), ("Tomato", "3"), ("", "")] }

/-- Second sample meal from the repository test suite. -/
def saladMeal : Meal :=
  { strMeal := some "Salad", strCategory := none,
    slots := [("Lettuce", "1 head"), ("Tomato", "2"), ("", "")] }

/-- Witness instantiating the aggregation theorem on the two test meals that
share the ingredient Tomato, and on one meal aggregated twice. -/
theorem create_shopping_list_aggregation_witness :
    (lookupEntry "tomato" (aggregateIngredients [pastaMeal, saladMeal]) =
      some ⟨"Tomato", ["3", "2"], ["Pasta", "Salad"]⟩
    ∧ (⟨"Tomato", ["3", "2"], ["Pasta", "Salad"]⟩ : IngredientEntry).measures
        = expectedMeasures "tomato" [pastaMeal, saladMeal]
    ∧ (⟨"Tomato", ["3", "2"], ["Pasta", "Salad"]⟩ : IngredientEntry).recipes
        = expectedRecipes "tomato" [pastaMeal, saladMeal])
    ∧ (lookupEntry "tomato" (aggregateIngredients [pastaMeal, pastaMeal]) =
      some ⟨"Tomato", ["3", "3"], ["Pasta", "Pasta"]⟩
    ∧ (⟨"Tomato", ["3", "3"], ["Pasta", "Pasta"]⟩ : IngredientEntry).measures.length
        = 2 * (slotsMeasuresFor "tomato" pastaMeal.slots).length
    ∧ renderedAttribution ⟨"Tomato", ["3", "3"], ["Pasta", "Pasta"]⟩
        = [mealDisplayName pastaMeal]) := by
  constructor
  · refine ⟨by decide, ?_, ?_⟩
    · exact ((create_shopping_list_aggregation [pastaMeal, saladMeal] "tomato").2.1
        ⟨"Tomato", ["3", "2"], ["Pasta", "Salad"]⟩ (by decide)).1
    · exact ((create_shopping_list_aggregation [pastaMeal, saladMeal] "tomato").2.1
        ⟨"Tomato", ["3", "2"], ["Pasta", "Salad"]⟩ (by decide)).2
  · refine ⟨by decide, ?_, ?_⟩
    · exact ((create_shopping_list_aggregation [pastaMeal, pastaMeal] "tomato").2.2
        pastaMeal ⟨"Tomato", ["3", "3"], ["Pasta", "Pasta"]⟩ (by decide)).1
    · exact ((create_shopping_list_aggregation [pastaMeal, pastaMeal] "tomato").2.2
        pastaMeal ⟨"Tomato", ["3", "3"], ["Pasta", "Pasta"]⟩ (by decide)).2

/-! # Filesystem model and the recipe save handlers (tools.py) -/

/-- Filesystem state seen by the recipe save handler: the set of regular
files and the set of directories, both as path strings. -/
structure FS where
  files : List String
  dirs : List String
deriving Repr, DecidableEq

/-- Models the pathlib expression `Path(dir) / seg` for a single
component: pathlib drops empty components, so joining with the empty string
yields the directory itself (the behaviour the repository test suite records
for an empty category). -/
def pyJoin (dir seg : String) : String :=
  if seg = "" then dir else dir ++ "/" ++ seg

/-- Models `p.mkdir(parents=True, exist_ok=True)` on the target directory:
idempotent creation.  Creation of intermediate parents does not matter to
any claim and is left implicit. -/
def mkdirp (fs : FS) (d : String) : FS :=
  if d ∈ fs.dirs then fs else { fs with dirs := fs.dirs ++ [d] }

/-- Outcome reported by the save_recipe_to_file branch of handle_local_tool:
the success message carries the file path, whether the replaced-existing
note was attached, and the category line. -/
inductive SaveOutcome where
  | success (path : String) (replaced : Bool) (category : String)
deriving Repr, DecidableEq

/-- Path reported in a save outcome. -/
def SaveOutcome.path : SaveOutcome → String
  | .success p _ _ => p

/-- Replaced-existing flag of a save outcome. -/
def SaveOutcome.replaced : SaveOutcome → Bool
  | .success _ r _ => r

/-- Filename resolution of the save handlers: the custom filename with the
pdf extension, else the meal name with / and backslash replaced by -. -/
def recipeFileName (meal : Meal) (customFilename : Option String) : String :=
  match customFilename with
  | some c => c ++ ".pdf"
  | none => replaceChar '\x5c' '-' (replaceChar '/' '-' (meal.strMeal.getD "recipe")) ++ ".pdf"

/-- The save_recipe_to_file branch of handle_local_tool, after the meal has
been fetched and the save directory resolved.  It computes the category
directory from `meal.get(strCategory, Uncategorized).strip()`, creates it,
resolves the file path, records whether a file already exists there, and
then evaluates `create_recipe_pdf(meal, filepath)`.  create_recipe_pdf in
pdf_recipe.py is declared `async def` and the call site does not await it:
in Python this builds a coroutine object that is never run, so the
filesystem is unchanged, no exception is raised, and the handler proceeds to
report success. -/
def save_recipe_to_file (meal : Meal) (customFilename : Option String)
    (saveDir : String) (fs : FS) : FS × SaveOutcome :=
  let category := pyStrip (meal.strCategory.getD "Uncategorized")
  let categoryDir := pyJoin saveDir category
  let fs1 := mkdirp fs categoryDir
  let filepath := pyJoin categoryDir (recipeFileName meal customFilename)
  let fileExists := decide (filepath ∈ fs1.files)
  (fs1, .success filepath fileExists category)

/-- Outcome of the save_recipe_by_name branch: either the no-recipe-found
message, or the outcome of the shared save sequence together with the
several-matches note. -/
inductive ByNameOutcome where
  | notFound
  | saved (o : SaveOutcome) (severalMatches : Bool)
deriving Repr, DecidableEq

/-- The save_recipe_by_name branch of handle_local_tool: search results in
hand, it saves the first match through the same (unawaited) sequence as
save_recipe_to_file. -/
def save_recipe_by_name (searchResults : List Meal) (customFilename : Option String)
    (saveDir : String) (fs : FS) : FS × ByNameOutcome :=
  match searchResults with
  | [] => (fs, .notFound)
  | m :: rest =>
      let r := save_recipe_to_file m customFilename saveDir fs
      (r.1, .saved r.2 (decide (rest.length + 1 > 1)))

/-- The effect create_recipe_pdf would have if its coroutine were actually
awaited: SimpleDocTemplate(...).build writes the document at the path. -/
def create_recipe_pdf_effect (fs : FS) (filepath : String) : FS :=
  if filepath ∈ fs.files then fs else { fs with files := fs.files ++ [filepath] }

/-- A sample fetched meal (the Spaghetti Carbonara record of the test
suite). -/
def carbonaraMeal : Meal :=
  { strMeal := some "Spaghetti Carbonara", strCategory := some "Pasta",
    slots := [("Spaghetti", "400g"), ("Bacon", "200g"), ("Eggs", "3"), ("Parmesan", "100g")] }

/-- An initially empty recipes root. -/
def fsEmptyRoot : FS :=
  { files := [], dirs := ["/data/recipes"] }

/-- C1: the save handlers report success with a resulting path even though
no document is written: the files component of the state is unchanged by
every save (the async create_recipe_pdf coroutine is never awaited), and on
a concrete save into an empty root the reported path does not exist
afterwards.  This contradicts the spec sentence that the store reports the
path of a completed write, and contradicts the repository test suite, which
asserts that the file exists after save_recipe_to_file. -/
theorem save_reports_success_without_writing :
    (∀ (meal : Meal) (custom : Option String) (saveDir : String) (fs : FS),
        (save_recipe_to_file meal custom saveDir fs).1.files = fs.files)
    ∧ (∀ (results : List Meal) (custom : Option String) (saveDir : String) (fs : FS),
        (save_recipe_by_name results custom saveDir fs).1.files = fs.files)
    ∧ (save_recipe_to_file carbonaraMeal none "/data/recipes" fsEmptyRoot).2 =
        .success "/data/recipes/Pasta/Spaghetti Carbonara.pdf" false "Pasta"
    ∧ "/data/recipes/Pasta/Spaghetti Carbonara.pdf" ∉
        (save_recipe_to_file carbonaraMeal none "/data/recipes" fsEmptyRoot).1.files := by
  refine ⟨?_, ?_, by decide, by decide⟩
  · intro meal custom saveDir fs
    simp only [save_recipe_to_file, mkdirp]
    by_cases h : pyJoin saveDir (pyStrip (meal.strCategory.getD "Uncategorized")) ∈ fs.dirs
    · simp [h]
    · simp [h]
  · intro results custom saveDir fs
    cases results with
    | nil => rfl
    | cons m rest =>
        simp only [save_recipe_by_name, save_recipe_to_file, mkdirp]
        by_cases h : pyJoin saveDir (pyStrip (m.strCategory.getD "Uncategorized")) ∈ fs.dirs
        · simp [h]
        · simp [h]

/-- C3 as stated is false of the code: saving the same recipe twice into the
same fresh root leaves zero files at the reported path (nothing is ever
written, since the rendering coroutine is unawaited), and the second save
reports success without the replaced-existing note. -/
theorem save_twice_no_replacement :
    ((save_recipe_to_file carbonaraMeal none "/data/recipes"
        (save_recipe_to_file carbonaraMeal none "/data/recipes" fsEmptyRoot).1).2.replaced
      = false)
    ∧ ((save_recipe_to_file carbonaraMeal none "/data/recipes"
        (save_recipe_to_file carbonaraMeal none "/data/recipes" fsEmptyRoot).1).1.files.count
          "/data/recipes/Pasta/Spaghetti Carbonara.pdf" = 0) := by
  constructor
  · decide
  · decide

/-- A meal whose strCategory key is present but holds the empty string, as
in the test_recipe_with_no_category test of the repository. -/
def emptyCategoryMeal : Meal :=
  { strMeal := some "Test Recipe", strCategory := some "",
    slots := [("Ingredient", "1 cup")] }

/-- A meal record lacking the strCategory key, the only situation in which
`meal.get(strCategory, Uncategorized)` produces the fallback label. -/
def noCategoryMeal : Meal :=
  { strMeal := some "Test Recipe", strCategory := none,
    slots := [("Ingredient", "1 cup")] }

/-- C2 is false of the code: a present-but-empty category string does not
produce an Uncategorized subdirectory.  `meal.get` only falls back when the
key is absent, the stripped empty category is joined by pathlib as an empty
component, and so the reported path lies directly in the root while no
Uncategorized directory is created (the repository test suite documents
exactly this behaviour). -/
theorem empty_category_saved_in_root :
    (save_recipe_to_file emptyCategoryMeal none "/data/recipes" fsEmptyRoot).2 =
      .success "/data/recipes/Test Recipe.pdf" false ""
    ∧ "/data/recipes/Uncategorized" ∉
        (save_recipe_to_file emptyCategoryMeal none "/data/recipes" fsEmptyRoot).1.dirs := by
  constructor
  · decide
  · decide

theorem recipeFileName_ne_empty (meal : Meal) (custom : Option String) :
    recipeFileName meal custom ≠ "" := by
  cases custom with
  | some c =>
      intro h
      have h2 := congrArg String.length h
      simp [recipeFileName, String.length_append] at h2
      exact absurd h2.2 (by decide)
  | none =>
      intro h
      have h2 := congrArg String.length h
      simp [recipeFileName, String.length_append] at h2
      exact absurd h2.2 (by decide)

theorem pyStrip_uncategorized : pyStrip "Uncategorized" = "Uncategorized" := by
  decide

/-- C2 amended: when the category string strips to the empty string the
target directory resolves to the root itself (the empty path component is
dropped), so the reported document path lies directly under the root and no
new subdirectory is created beyond the root; the literal Uncategorized
subdirectory is used exactly when the strCategory key is absent from the
meal record. -/
theorem empty_category_resolves_to_root (meal : Meal) (custom : Option String)
    (saveDir : String) (fs : FS) :
    (pyStrip (meal.strCategory.getD "Uncategorized") = "" →
      (save_recipe_to_file meal custom saveDir fs).2.path =
        pyJoin saveDir (recipeFileName meal custom)
      ∧ (save_recipe_to_file meal custom saveDir fs).1.dirs = (mkdirp fs saveDir).dirs)
    ∧ (meal.strCategory = none →
      (save_recipe_to_file meal custom saveDir fs).2.path =
        pyJoin (pyJoin saveDir "Uncategorized") (recipeFileName meal custom)) := by
  constructor
  · intro h
    constructor
    · simp [save_recipe_to_file, SaveOutcome.path, h, pyJoin]
    · simp [save_recipe_to_file, h, pyJoin]
  · intro h
    simp [save_recipe_to_file, SaveOutcome.path, h, pyStrip_uncategorized]

/-- Witness for the amended C2 theorem at the two concrete meals. -/
theorem empty_category_resolves_to_root_witness :
    (pyStrip (emptyCategoryMeal.strCategory.getD "Uncategorized") = ""
    ∧ (save_recipe_to_file emptyCategoryMeal none "/data/recipes" fsEmptyRoot).2.path =
        pyJoin "/data/recipes" (recipeFileName emptyCategoryMeal none))
    ∧ (noCategoryMeal.strCategory = none
    ∧ (save_recipe_to_file noCategoryMeal none "/data/recipes" fsEmptyRoot).2.path =
        pyJoin (pyJoin "/data/recipes" "Uncategorized") (recipeFileName noCategoryMeal none)) := by
  constructor
  · refine ⟨by decide, ?_⟩
    exact ((empty_category_resolves_to_root emptyCategoryMeal none "/data/recipes"
      fsEmptyRoot).1 (by decide)).1
  · refine ⟨rfl, ?_⟩
    exact (empty_category_resolves_to_root noCategoryMeal none "/data/recipes"
      fsEmptyRoot).2 rfl

/-! # Shopping-list handlers (tools.py) -/

/-- The glob pattern shopping_list_*.pdf used by the shopping-list handlers:
a name matches exactly when it starts with the prefix and ends with the
extension, since the star matches any (possibly empty) run of characters
within one path component. -/
def shoppingMatches (name : String) : Bool :=
  pyStartsWith name "shopping_list_" && pyEndsWith name ".pdf"

/-- The expression sorted(save_dir.glob("shopping_list_*.pdf")): matching
file names of the flat root directory in ascending name order.  The root
directory contents are modelled as the list of file names directly under the
root. -/
def shoppingGlob (fs : List String) : List String :=
  sortStrings (fs.filter (fun n => shoppingMatches n))

/-- The meal-fetch loop of create_shopping_list: fetch_meal_data is awaited
for each id in turn and the first failure raises, aborting the handler; the
outer try/except of handle_local_tool turns the exception into an error
message. -/
def fetchMeals (fetch : String → Except String Meal) :
    List String → Except String (List Meal)
  | [] => .ok []
  | i :: rest =>
      match fetch i with
      | .error e => .error e
      | .ok m =>
          match fetchMeals fetch rest with
          | .error e => .error e
          | .ok ms => .ok (m :: ms)

/-- Outcome reported by the create_shopping_list branch of
handle_local_tool. -/
inductive ShoppingOutcome where
  | noMealIds
  | fetchError (e : String)
  | success (path : String) (deletedCount : Nat) (ingredientCount : Nat) (totalLists : Nat)
deriving Repr, DecidableEq

/-- The create_shopping_list branch of handle_local_tool over the flat root
directory.  In source order: empty id guard; enumeration of the existing
sorted shopping lists; if replace_existing, deletion of all but the two most
recent (only when more than two exist); the meal fetch loop with ingredient
aggregation; filename resolution (custom name or shopping_list_ plus the
save-time timestamp); the synchronous create_shopping_list_pdf write; and
the success summary carrying the deleted and current counts. -/
def create_shopping_list (fetch : String → Except String Meal) (mealIds : List String)
    (replaceExisting : Bool) (customFilename : Option String) (timestamp : String)
    (fs : List String) : List String × ShoppingOutcome :=
  if mealIds.isEmpty then (fs, .noMealIds)
  else
    let existing := shoppingGlob fs
    let listsToDelete :=
      if replaceExisting && !existing.isEmpty then
        if existing.length > 2 then existing.take (existing.length - 2) else []
      else []
    let fs1 := fs.filter (fun f => decide (f ∉ listsToDelete))
    match fetchMeals fetch mealIds with
    | .error e => (fs1, .fetchError e)
    | .ok meals =>
        let allIngredients := aggregateIngredients meals
        let filename :=
          match customFilename with
          | some c => c ++ ".pdf"
          | none => "shopping_list_" ++ timestamp ++ ".pdf"
        let fs2 := if filename ∈ fs1 then fs1 else fs1 ++ [filename]
        (fs2, .success filename listsToDelete.length allIngredients.length
          (fs2.filter (fun n => shoppingMatches n)).length)

/-- The list_shopping_lists branch: the sorted glob of the root (reported
one per line; an empty result produces the no-lists message). -/
def list_shopping_lists (fs : List String) : List String :=
  shoppingGlob fs

/-- The delete_all_shopping_lists branch: unlink every glob match and report
how many were removed. -/
def delete_all_shopping_lists (fs : List String) : List String × Nat :=
  (fs.filter (fun f => !shoppingMatches f), (fs.filter (fun n => shoppingMatches n)).length)

theorem shoppingGlob_perm (fs : List String) :
    List.Perm (shoppingGlob fs) (fs.filter (fun n => shoppingMatches n)) :=
  perm_sortBy _ _

theorem leadMatch_append (l r : List Char) : leadMatch l (l ++ r) = true := by
  induction l with
  | nil => rfl
  | cons c cs ih => simp [leadMatch, ih]

/-- The default timestamped filename always matches the shopping glob. -/
theorem shoppingMatches_default (ts : String) :
    shoppingMatches ("shopping_list_" ++ ts ++ ".pdf") = true := by
  have h1 : pyStartsWith ("shopping_list_" ++ ts ++ ".pdf") "shopping_list_" = true := by
    have hl : ("shopping_list_" ++ ts ++ ".pdf").toList =
        "shopping_list_".toList ++ (ts.toList ++ ".pdf".toList) := by
      simp [String.toList]
    simp [pyStartsWith, hl, leadMatch]
  have h2 : pyEndsWith ("shopping_list_" ++ ts ++ ".pdf") ".pdf" = true := by
    have hl : ("shopping_list_" ++ ts ++ ".pdf").toList.reverse =
        ".pdf".toList.reverse ++ (ts.toList.reverse ++ "shopping_list_".toList.reverse) := by
      simp [String.toList]
    simp [pyEndsWith, hl, leadMatch]
  simp [shoppingMatches, h1, h2]

/-- Auxiliary set-difference computation: filtering an append by
non-membership in its left part keeps exactly the right part when the two
parts are disjoint. -/
theorem filter_notmem_of_eq_append {α : Type} [DecidableEq α] (E D R : List α)
    (hsplit : E = D ++ R) (hdisj : ∀ x ∈ R, x ∉ D) :
    E.filter (fun f => decide (f ∉ D)) = R := by
  subst hsplit
  rw [List.filter_append]
  have h1 : D.filter (fun f => decide (f ∉ D)) = [] :=
    List.filter_eq_nil_iff.mpr (fun x hx => by simp [hx])
  have h2 : R.filter (fun f => decide (f ∉ D)) = R :=
    List.filter_eq_self.mpr (fun x hx => by simp [hdisj x hx])
  rw [h1, h2, List.nil_append]

/-- Core counting fact: deleting every glob match outside the last k of the
sorted glob leaves exactly the last k matching files, whatever else the root
contains. -/
theorem length_filter_after_delete (fs : List String) (hn : fs.Nodup) (k : Nat) :
    ((fs.filter (fun f =>
        decide (f ∉ (shoppingGlob fs).take k))).filter
      (fun n => shoppingMatches n)).length = (shoppingGlob fs).length - k := by
  have hcomm : (fs.filter (fun f =>
          decide (f ∉ (shoppingGlob fs).take k))).filter
        (fun n => shoppingMatches n)
      = (fs.filter (fun n => shoppingMatches n)).filter (fun f =>
          decide (f ∉ (shoppingGlob fs).take k)) := by
    rw [List.filter_filter, List.filter_filter]
    congr 1
    funext a
    rw [Bool.and_comm]
  rw [hcomm]
  have hpermE : List.Perm (fs.filter (fun n => shoppingMatches n)) (shoppingGlob fs) :=
    (shoppingGlob_perm fs).symm
  have hnodupE : (shoppingGlob fs).Nodup := hpermE.nodup (hn.filter _)
  have hpermF := hpermE.filter (fun f =>
    decide (f ∉ (shoppingGlob fs).take k))
  rw [hpermF.length_eq]
  have hdisj : ∀ x ∈ (shoppingGlob fs).drop k,
      x ∉ (shoppingGlob fs).take k := by
    intro x hx hxD
    exact List.disjoint_take_drop hnodupE (le_refl k) hxD hx
  have hfin := filter_notmem_of_eq_append (shoppingGlob fs)
    ((shoppingGlob fs).take k)
    ((shoppingGlob fs).drop k)
    (List.take_append_drop _ _).symm hdisj
  rw [hfin, List.length_drop]

theorem create_shopping_list_state_ok (fetch : String → Except String Meal)
    (mealIds : List String) (repl : Bool) (custom : Option String) (ts : String)
    (fs : List String) (meals : List Meal)
    (hids : mealIds.isEmpty = false) (hok : fetchMeals fetch mealIds = .ok meals) :
    (create_shopping_list fetch mealIds repl custom ts fs).1 =
      (let listsToDelete :=
        if repl && !(shoppingGlob fs).isEmpty then
          if (shoppingGlob fs).length > 2 then
            (shoppingGlob fs).take ((shoppingGlob fs).length - 2)
          else []
        else []
      let fs1 := fs.filter (fun f => decide (f ∉ listsToDelete))
      let filename := match custom with
        | some c => c ++ ".pdf"
        | none => "shopping_list_" ++ ts ++ ".pdf"
      if filename ∈ fs1 then fs1 else fs1 ++ [filename]) := by
  simp only [create_shopping_list, hids, Bool.false_eq_true, if_false, hok]

theorem create_shopping_list_state_error (fetch : String → Except String Meal)
    (mealIds : List String) (repl : Bool) (custom : Option String) (ts : String)
    (fs : List String) (e : String)
    (hids : mealIds.isEmpty = false) (herr : fetchMeals fetch mealIds = .error e) :
    create_shopping_list fetch mealIds repl custom ts fs =
      (fs.filter (fun f => decide (f ∉
        (if repl && !(shoppingGlob fs).isEmpty then
          if (shoppingGlob fs).length > 2 then
            (shoppingGlob fs).take ((shoppingGlob fs).length - 2)
          else []
        else []))), .fetchError e) := by
  simp only [create_shopping_list, hids, Bool.false_eq_true, if_false, herr]

/-- C4: a shopping-list save with replace_existing true and four
pre-existing lists leaves exactly three: the two most recent (by name sort)
survive, the two oldest are unlinked, and the new default-named file is
written; with replace_existing false nothing is deleted and the four
pre-existing lists become five. -/
theorem shopping_list_retention (fetch : String → Except String Meal)
    (mealIds : List String) (ts : String) (fs : List String) (meals : List Meal)
    (hids : mealIds ≠ []) (hok : fetchMeals fetch mealIds = .ok meals)
    (hn : fs.Nodup) (hfour : (shoppingGlob fs).length = 4)
    (hnew : ("shopping_list_" ++ ts ++ ".pdf") ∉ fs) :
    (((create_shopping_list fetch mealIds true none ts fs).1.filter
        (fun n => shoppingMatches n)).length = 3
      ∧ (∀ f ∈ (shoppingGlob fs).drop 2,
          f ∈ (create_shopping_list fetch mealIds true none ts fs).1)
      ∧ (∀ f ∈ (shoppingGlob fs).take 2,
          f ∉ (create_shopping_list fetch mealIds true none ts fs).1)
      ∧ ("shopping_list_" ++ ts ++ ".pdf") ∈
          (create_shopping_list fetch mealIds true none ts fs).1)
    ∧ (((create_shopping_list fetch mealIds false none ts fs).1.filter
        (fun n => shoppingMatches n)).length = 5
      ∧ ∀ f ∈ fs, f ∈ (create_shopping_list fetch mealIds false none ts fs).1) := by
  have hidsB : mealIds.isEmpty = false := by
    cases mealIds with
    | nil => exact absurd rfl hids
    | cons a l => rfl
  have hnewT : shoppingMatches ("shopping_list_" ++ ts ++ ".pdf") = true :=
    shoppingMatches_default ts
  have hEne : (shoppingGlob fs).isEmpty = false := by
    cases hEq : shoppingGlob fs with
    | nil => rw [hEq] at hfour; simp at hfour
    | cons a l => rfl
  have htake : (shoppingGlob fs).take ((shoppingGlob fs).length - 2) =
      (shoppingGlob fs).take 2 := by rw [hfour]
  have hnotmem1 : ("shopping_list_" ++ ts ++ ".pdf") ∉
      fs.filter (fun f => decide (f ∉ (shoppingGlob fs).take 2)) := by
    intro h
    exact hnew (List.mem_of_mem_filter h)
  have hstT : (create_shopping_list fetch mealIds true none ts fs).1
      = fs.filter (fun f => decide (f ∉ (shoppingGlob fs).take 2))
        ++ ["shopping_list_" ++ ts ++ ".pdf"] := by
    rw [create_shopping_list_state_ok fetch mealIds true none ts fs meals hidsB hok]
    simp only [hEne, Bool.not_false, Bool.and_self, if_true, hfour, htake]
    simp [htake, hfour, hnew]
  have hlen2 : ((fs.filter (fun f =>
      decide (f ∉ (shoppingGlob fs).take 2))).filter
        (fun n => shoppingMatches n)).length = 2 := by
    have h := length_filter_after_delete fs hn 2
    rw [hfour] at h
    exact h
  constructor
  · refine ⟨?_, ?_, ?_, ?_⟩
    · rw [hstT, List.filter_append, List.length_append, hlen2]
      simp [hnewT]
    · intro f hf
      rw [hstT]
      apply List.mem_append_left
      have hfE : f ∈ shoppingGlob fs := List.mem_of_mem_drop hf
      have hffs : f ∈ fs := by
        have := (shoppingGlob_perm fs).mem_iff.mp hfE
        exact List.mem_of_mem_filter this
      have hnodupE : (shoppingGlob fs).Nodup :=
        (shoppingGlob_perm fs).symm.nodup (hn.filter _)
      have hfD : f ∉ (shoppingGlob fs).take 2 := by
        intro hfD
        have hdisj := List.disjoint_take_drop hnodupE (le_refl 2)
        exact hdisj hfD hf
      exact List.mem_filter.mpr ⟨hffs, by simpa using hfD⟩
    · intro f hf
      rw [hstT]
      intro hmem
      rcases List.mem_append.mp hmem with h1 | h1
      · have := List.mem_filter.mp h1
        simp at this
        exact this.2 hf
      · have hfeq : f = "shopping_list_" ++ ts ++ ".pdf" := by simpa using h1
        have hffs : f ∈ fs := by
          have hfE : f ∈ shoppingGlob fs := List.mem_of_mem_take hf
          have := (shoppingGlob_perm fs).mem_iff.mp hfE
          exact List.mem_of_mem_filter this
        rw [hfeq] at hffs
        exact hnew hffs
    · rw [hstT]
      exact List.mem_append_right _ (by simp)
  · have hstF : (create_shopping_list fetch mealIds false none ts fs).1
        = fs ++ ["shopping_list_" ++ ts ++ ".pdf"] := by
      rw [create_shopping_list_state_ok fetch mealIds false none ts fs meals hidsB hok]
      simp only [Bool.false_and, if_false]
      have hfs : fs.filter (fun f => decide (f ∉ ([] : List String))) = fs :=
        List.filter_eq_self.mpr (fun a _ => by simp)
      simp only [Bool.false_eq_true, if_false, hfs]
      simp [hnew]
    constructor
    · have hflen : (fs.filter (fun n => shoppingMatches n)).length = 4 :=
        ((shoppingGlob_perm fs).length_eq).symm.trans hfour
      rw [hstF, List.filter_append, List.length_append, hflen]
      simp [hnewT]
    · intro f hf
      rw [hstF]
      exact List.mem_append_left _ hf

/-- Four pre-existing timestamped shopping lists next to an unrelated file. -/
def shoppingFsFour : List String :=
  ["shopping_list_20230101_000000.pdf", "shopping_list_20230202_000000.pdf",
   "shopping_list_20230303_000000.pdf", "shopping_list_20230404_000000.pdf",
   "Recipe.pdf"]

/-- Witness instantiating the retention theorem: four pre-existing lists
become three with replacement and five without. -/
theorem shopping_list_retention_witness :
    ((["52772"] : List String) ≠ []
      ∧ (shoppingGlob shoppingFsFour).length = 4
      ∧ ("shopping_list_" ++ "20240101_120000" ++ ".pdf") ∉ shoppingFsFour)
    ∧ ((create_shopping_list (fun _ => Except.ok carbonaraMeal) ["52772"] true none
        "20240101_120000" shoppingFsFour).1.filter (fun n => shoppingMatches n)).length = 3
    ∧ ((create_shopping_list (fun _ => Except.ok carbonaraMeal) ["52772"] false none
        "20240101_120000" shoppingFsFour).1.filter (fun n => shoppingMatches n)).length = 5 := by
  refine ⟨⟨by decide, by decide, by decide⟩, ?_, ?_⟩
  · exact (shopping_list_retention (fun _ => Except.ok carbonaraMeal) ["52772"]
      "20240101_120000" shoppingFsFour [carbonaraMeal] (by decide) rfl
      (by decide) (by decide) (by decide)).1.1
  · exact (shopping_list_retention (fun _ => Except.ok carbonaraMeal) ["52772"]
      "20240101_120000" shoppingFsFour [carbonaraMeal] (by decide) rfl
      (by decide) (by decide) (by decide)).2.1

/-- C7: with replace_existing true and more than two pre-existing lists, the
retention deletions run before any meal is fetched; when the fetch then
fails, the handler reports an error, yet the resulting state is exactly the
original minus the deleted oldest lists: strictly smaller, nothing added,
the deleted lists gone. -/
theorem shopping_list_deleted_on_fetch_error (fetch : String → Except String Meal)
    (mealIds : List String) (ts : String) (fs : List String) (e : String)
    (custom : Option String)
    (hids : mealIds ≠ [])
    (hlen : 2 < (shoppingGlob fs).length)
    (herr : fetchMeals fetch mealIds = .error e) :
    (create_shopping_list fetch mealIds true custom ts fs).2 = .fetchError e
    ∧ (create_shopping_list fetch mealIds true custom ts fs).1 =
        fs.filter (fun f =>
          decide (f ∉ (shoppingGlob fs).take ((shoppingGlob fs).length - 2)))
    ∧ (∀ x ∈ (create_shopping_list fetch mealIds true custom ts fs).1, x ∈ fs)
    ∧ (create_shopping_list fetch mealIds true custom ts fs).1.length < fs.length
    ∧ (∀ f ∈ (shoppingGlob fs).take ((shoppingGlob fs).length - 2),
        f ∉ (create_shopping_list fetch mealIds true custom ts fs).1) := by
  have hidsB : mealIds.isEmpty = false := by
    cases mealIds with
    | nil => exact absurd rfl hids
    | cons a l => rfl
  have hEne : (shoppingGlob fs).isEmpty = false := by
    cases hEq : shoppingGlob fs with
    | nil => rw [hEq] at hlen; simp at hlen
    | cons a l => rfl
  have hst : create_shopping_list fetch mealIds true custom ts fs =
      (fs.filter (fun f =>
        decide (f ∉ (shoppingGlob fs).take ((shoppingGlob fs).length - 2))),
       .fetchError e) := by
    rw [create_shopping_list_state_error fetch mealIds true custom ts fs e hidsB herr]
    simp [hEne, hlen]
  have hDne : (shoppingGlob fs).take ((shoppingGlob fs).length - 2) ≠ [] := by
    intro hnil
    have hl := congrArg List.length hnil
    rw [List.length_take] at hl
    simp at hl
    omega
  obtain ⟨x0, hx0D⟩ := List.exists_mem_of_ne_nil _ hDne
  have hx0fs : x0 ∈ fs := by
    have hx0E : x0 ∈ shoppingGlob fs := List.mem_of_mem_take hx0D
    exact List.mem_of_mem_filter ((shoppingGlob_perm fs).mem_iff.mp hx0E)
  refine ⟨by rw [hst], by rw [hst], ?_, ?_, ?_⟩
  · intro x hx
    rw [hst] at hx
    exact List.mem_of_mem_filter hx
  · rw [hst]
    show (fs.filter (fun f =>
      decide (f ∉ (shoppingGlob fs).take ((shoppingGlob fs).length - 2)))).length < fs.length
    have hperm := List.filter_append_perm (fun f =>
      decide (f ∉ (shoppingGlob fs).take ((shoppingGlob fs).length - 2))) fs
    have hlen_eq := hperm.length_eq
    rw [List.length_append] at hlen_eq
    have hpos : 0 < (fs.filter (fun f =>
        !decide (f ∉ (shoppingGlob fs).take ((shoppingGlob fs).length - 2)))).length := by
      apply List.length_pos.mpr
      intro hnil
      have : x0 ∈ fs.filter (fun f =>
          !decide (f ∉ (shoppingGlob fs).take ((shoppingGlob fs).length - 2))) :=
        List.mem_filter.mpr ⟨hx0fs, by simp [hx0D]⟩
      rw [hnil] at this
      exact absurd this (List.not_mem_nil x0)
    omega
  · intro f hf
    rw [hst]
    intro hmem
    have h2 := (List.mem_filter.mp hmem).2
    simp at h2
    exact h2 hf

/-- Three pre-existing timestamped shopping lists. -/
def shoppingFsThree : List String :=
  ["shopping_list_20230101_000000.pdf", "shopping_list_20230202_000000.pdf",
   "shopping_list_20230303_000000.pdf"]

/-- Witness instantiating the error-path theorem: three lists, a failing
fetch, an error outcome and a strictly shrunken directory. -/
theorem shopping_list_deleted_on_fetch_error_witness :
    (2 < (shoppingGlob shoppingFsThree).length
      ∧ fetchMeals (fun _ => Except.error "API Error") ["52772"] = .error "API Error")
    ∧ (create_shopping_list (fun _ => Except.error "API Error") ["52772"] true none
        "20240101_120000" shoppingFsThree).2 = .fetchError "API Error"
    ∧ (create_shopping_list (fun _ => Except.error "API Error") ["52772"] true none
        "20240101_120000" shoppingFsThree).1.length < shoppingFsThree.length := by
  refine ⟨⟨by decide, rfl⟩, ?_, ?_⟩
  · exact (shopping_list_deleted_on_fetch_error (fun _ => Except.error "API Error")
      ["52772"] "20240101_120000" shoppingFsThree "API Error" none (by decide)
      (by decide) rfl).1
  · exact (shopping_list_deleted_on_fetch_error (fun _ => Except.error "API Error")
      ["52772"] "20240101_120000" shoppingFsThree "API Error" none (by decide)
      (by decide) rfl).2.2.2.1

theorem mem_if_insert {α : Type} [DecidableEq α] (x : α) (l : List α) :
    x ∈ (if x ∈ l then l else l ++ [x]) := by
  by_cases h : x ∈ l
  · rw [if_pos h]
    exact h
  · simp [h]

/-- C8 as stated is false of the code: a custom filename that itself starts
with shopping_list_ produces a file that the shopping_list_*.pdf glob does
match, so list_shopping_lists reports it and delete_all_shopping_lists
removes it. -/
theorem custom_prefixed_list_visible :
    list_shopping_lists (create_shopping_list (fun _ => Except.ok carbonaraMeal) ["1"]
        false (some "shopping_list_extra") "20240101_120000" []).1
      = ["shopping_list_extra.pdf"]
    ∧ (delete_all_shopping_lists (create_shopping_list (fun _ => Except.ok carbonaraMeal)
        ["1"] false (some "shopping_list_extra") "20240101_120000" []).1).1 = [] := by
  constructor
  · decide
  · decide

/-- C8 amended: a shopping list saved with a custom filename is written as
custom.pdf directly under the root without any prefix being added; provided
the resulting name does not itself match the shopping_list_*.pdf pattern
(that is, the custom name does not start with shopping_list_),
list_shopping_lists never reports it, delete_all_shopping_lists never
deletes it, and the replace_existing retention step neither counts nor
deletes it, because all three operate on the shopping_list_*.pdf glob
only. -/
theorem custom_named_list_invisible (custom : String)
    (hnm : shoppingMatches (custom ++ ".pdf") = false) :
    (∀ (fetch : String → Except String Meal) (mealIds : List String) (repl : Bool)
        (ts : String) (fs : List String) (meals : List Meal), mealIds ≠ [] →
      fetchMeals fetch mealIds = .ok meals →
      (custom ++ ".pdf") ∈ (create_shopping_list fetch mealIds repl (some custom) ts fs).1)
    ∧ (∀ fs : List String, (custom ++ ".pdf") ∉ list_shopping_lists fs)
    ∧ (∀ fs : List String, (custom ++ ".pdf") ∈ fs →
        (custom ++ ".pdf") ∈ (delete_all_shopping_lists fs).1)
    ∧ (∀ fs : List String, (custom ++ ".pdf") ∉ shoppingGlob fs) := by
  have hglob : ∀ fs : List String, (custom ++ ".pdf") ∉ shoppingGlob fs := by
    intro fs hmem
    have h1 := (shoppingGlob_perm fs).mem_iff.mp hmem
    have h2 := (List.mem_filter.mp h1).2
    rw [hnm] at h2
    exact absurd h2 (by simp)
  refine ⟨?_, ?_, ?_, hglob⟩
  · intro fetch mealIds repl ts fs meals hids hok
    have hidsB : mealIds.isEmpty = false := by
      cases mealIds with
      | nil => exact absurd rfl hids
      | cons a l => rfl
    rw [create_shopping_list_state_ok fetch mealIds repl (some custom) ts fs meals hidsB hok]
    exact mem_if_insert _ _
  · intro fs
    exact hglob fs
  · intro fs hmem
    exact List.mem_filter.mpr ⟨hmem, by simp [hnm]⟩

/-- Witness instantiating the amended C8 theorem at the custom name
groceries, with a genuine shopping list also present. -/
theorem custom_named_list_invisible_witness :
    shoppingMatches ("groceries" ++ ".pdf") = false
    ∧ ("groceries" ++ ".pdf") ∈ (create_shopping_list (fun _ => Except.ok carbonaraMeal)
        ["1"] true (some "groceries") "20240101_120000"
        ["shopping_list_20230101_000000.pdf"]).1
    ∧ ("groceries" ++ ".pdf") ∉ list_shopping_lists
        ["shopping_list_20230101_000000.pdf", "groceries.pdf"]
    ∧ ("groceries" ++ ".pdf") ∈ (delete_all_shopping_lists
        ["shopping_list_20230101_000000.pdf", "groceries.pdf"]).1 := by
  refine ⟨by decide, ?_, ?_, ?_⟩
  · exact (custom_named_list_invisible "groceries" (by decide)).1
      (fun _ => Except.ok carbonaraMeal) ["1"] true "20240101_120000"
      ["shopping_list_20230101_000000.pdf"] [carbonaraMeal] (by decide) rfl
  · exact (custom_named_list_invisible "groceries" (by decide)).2.1
      ["shopping_list_20230101_000000.pdf", "groceries.pdf"]
  · exact (custom_named_list_invisible "groceries" (by decide)).2.2.1
      ["shopping_list_20230101_000000.pdf", "groceries.pdf"] (by decide)

/-! # config.py: recipes directory persistence -/

/-- A parsed pathlib PurePosixPath: absoluteness plus the list of path
components.  Components produced by parsing are nonempty, are not a lone
dot, and contain no slash. -/
structure PyPath where
  absolute : Bool
  segs : List (List Char)
deriving Repr, DecidableEq

/-- Well-formedness of one parsed component. -/
def validSeg (s : List Char) : Prop :=
  s ≠ [] ∧ s ≠ ['.'] ∧ '/' ∉ s

instance : DecidablePred validSeg := fun s =>
  decidable_of_iff (s ≠ [] ∧ s ≠ ['.'] ∧ '/' ∉ s) Iff.rfl

/-- Well-formedness of a parsed path. -/
def validPath (p : PyPath) : Prop :=
  ∀ s ∈ p.segs, validSeg s

instance (p : PyPath) : Decidable (validPath p) :=
  decidable_of_iff (∀ s ∈ p.segs, validSeg s) Iff.rfl

/-- Split a character list at slashes, keeping the empty pieces produced by
leading or repeated slashes. -/
def splitSlash : List Char → List (List Char)
  | [] => [[]]
  | c :: cs =>
      if c = '/' then [] :: splitSlash cs
      else
        match splitSlash cs with
        | [] => [[c]]
        | s :: rest => (c :: s) :: rest

/-- Join components with slashes. -/
def joinSegs : List (List Char) → List Char
  | [] => []
  | [s] => s
  | s :: rest => s ++ '/' :: joinSegs rest

/-- Models the PurePosixPath constructor applied to a string: record
absoluteness and keep the nonempty, non-dot components.  The pathlib quirk
that exactly two leading slashes are preserved does not matter here and is
not modelled. -/
def parsePath (s : String) : PyPath :=
  { absolute := decide (s.toList.head? = some '/'),
    segs := (splitSlash s.toList).filter (fun seg => decide (seg ≠ [] ∧ seg ≠ ['.'])) }

/-- Models str() of a PurePosixPath: slash-joined components, with a leading
slash when absolute and a lone dot for the empty relative path. -/
def printPath (p : PyPath) : String :=
  if p.absolute then String.mk ('/' :: joinSegs p.segs)
  else if p.segs.isEmpty then "."
  else String.mk (joinSegs p.segs)

/-- Models Path.expanduser: when the path is relative and its first
component begins with a tilde, a lone tilde is replaced by the home path and
a named tilde component by the home directory of that user from the user
database; an unknown user raises RuntimeError, modelled as none. -/
def expanduser (userHome : List Char → Option PyPath) (home : PyPath)
    (p : PyPath) : Option PyPath :=
  if p.absolute then some p
  else
    match p.segs with
    | [] => some p
    | [] :: _ => some p
    | (c :: tail) :: rest =>
        if c = '~' then
          if tail.isEmpty then
            some { absolute := home.absolute, segs := home.segs ++ rest }
          else
            match userHome tail with
            | some h => some { absolute := h.absolute, segs := h.segs ++ rest }
            | none => none
        else some p

/-- save_recipes_dir from config.py: expand the user notation, create the
directory, write the dict {recipes_dir: str(path)} to the config file and
return the resolved path.  The returned pair is the resolved path and the
new stored recipes_dir value; directory creation changes neither and is left
implicit; an expansion failure propagates, modelled as none. -/
def save_recipes_dir (userHome : List Char → Option PyPath) (home : PyPath)
    (directory : String) : Option (PyPath × Option String) :=
  match expanduser userHome home (parsePath directory) with
  | none => none
  | some p => some (p, some (printPath p))

/-- The fallback of load_recipes_dir: the host outputs directory plus a
recipes subfolder when that directory exists, else Documents/mealdb_recipes
under the home directory. -/
def defaultRecipesDir (home : PyPath) (outputsExists : Bool) : PyPath :=
  if outputsExists then
    { absolute := true,
      segs := ["mnt".toList, "user-data".toList, "outputs".toList, "recipes".toList] }
  else
    { absolute := home.absolute,
      segs := home.segs ++ ["Documents".toList, "mealdb_recipes".toList] }

/-- load_recipes_dir from config.py: when the config file holds a non-empty
recipes_dir value, parse and expand it, any exception falling back to the
default directory; an absent, unreadable or malformed file (modelled as a
missing value) also selects the default. -/
def load_recipes_dir (userHome : List Char → Option PyPath) (home : PyPath)
    (cfg : Option String) (outputsExists : Bool) : PyPath :=
  match cfg with
  | none => defaultRecipesDir home outputsExists
  | some stored =>
      if stored ≠ "" then
        match expanduser userHome home (parsePath stored) with
        | some p => p
        | none => defaultRecipesDir home outputsExists
      else defaultRecipesDir home outputsExists

theorem splitSlash_ne_nil (cs : List Char) : splitSlash cs ≠ [] := by
  cases cs with
  | nil => simp [splitSlash]
  | cons c cs =>
      by_cases h : c = '/'
      · simp [splitSlash, h]
      · simp only [splitSlash, h, if_neg, not_false_iff]
        cases hs : splitSlash cs with
        | nil => simp
        | cons s rest => simp

theorem no_slash_of_mem_splitSlash :
    ∀ cs : List Char, ∀ seg ∈ splitSlash cs, '/' ∉ seg := by
  intro cs
  induction cs with
  | nil =>
      intro seg hseg
      simp [splitSlash] at hseg
      simp [hseg]
  | cons c cs ih =>
      intro seg hseg
      by_cases h : c = '/'
      · simp only [splitSlash, h, if_pos] at hseg
        rcases List.mem_cons.mp hseg with h1 | h1
        · simp [h1]
        · exact ih seg h1
      · simp only [splitSlash, h, if_neg, not_false_iff] at hseg
        cases hs : splitSlash cs with
        | nil => exact absurd hs (splitSlash_ne_nil cs)
        | cons s rest =>
            rw [hs] at hseg
            rcases List.mem_cons.mp hseg with h1 | h1
            · subst h1
              intro hmem
              rcases List.mem_cons.mp hmem with h2 | h2
              · exact h h2.symm
              · exact ih s (hs ▸ List.mem_cons_self s rest) h2
            · exact ih seg (hs ▸ List.mem_cons_of_mem s h1)

theorem splitSlash_no_slash (s : List Char) (h : '/' ∉ s) : splitSlash s = [s] := by
  induction s with
  | nil => rfl
  | cons c cs ih =>
      have hc : ¬ c = '/' := fun hcc => h (by simp [hcc])
      have hcs : '/' ∉ cs := fun hmem => h (List.mem_cons_of_mem c hmem)
      simp only [splitSlash, hc, if_neg, not_false_iff, ih hcs]

theorem splitSlash_append (s t : List Char) (h : '/' ∉ s) :
    splitSlash (s ++ '/' :: t) = s :: splitSlash t := by
  induction s with
  | nil => simp [splitSlash]
  | cons c cs ih =>
      have hc : ¬ c = '/' := fun hcc => h (by simp [hcc])
      have hcs : '/' ∉ cs := fun hmem => h (List.mem_cons_of_mem c hmem)
      simp only [List.cons_append, splitSlash, hc, if_neg, not_false_iff, List.append_eq]
      rw [ih hcs]

theorem filter_splitSlash_joinSegs :
    ∀ segs : List (List Char), (∀ s ∈ segs, validSeg s) →
      (splitSlash (joinSegs segs)).filter (fun seg => decide (seg ≠ [] ∧ seg ≠ ['.'])) = segs := by
  intro segs
  induction segs with
  | nil => intro _; simp [joinSegs, splitSlash]
  | cons s rest ih =>
      intro hall
      have hs := hall s (List.mem_cons_self s rest)
      obtain ⟨hne, hdot, hslash⟩ := hs
      cases rest with
      | nil =>
          rw [show joinSegs [s] = s from rfl, splitSlash_no_slash s hslash]
          simp [hne, hdot]
      | cons s2 rest2 =>
          rw [show joinSegs (s :: s2 :: rest2) = s ++ '/' :: joinSegs (s2 :: rest2) from rfl,
            splitSlash_append s _ hslash, List.filter_cons]
          simp only [hne, hdot, decide_eq_true_eq, and_self, if_true]
          rw [ih (fun x hx => hall x (List.mem_cons_of_mem s hx))]
          simp [hne, hdot]

theorem head_joinSegs (s : List Char) (rest : List (List Char)) (h : s ≠ []) :
    (joinSegs (s :: rest)).head? = s.head? := by
  cases rest with
  | nil => rfl
  | cons s2 rest2 =>
      cases s with
      | nil => exact absurd rfl h
      | cons c tail => rfl

theorem validPath_parsePath (s : String) : validPath (parsePath s) := by
  intro seg hseg
  simp only [parsePath] at hseg
  have h1 := List.mem_filter.mp hseg
  have h2 := h1.2
  simp only [decide_eq_true_eq] at h2
  exact ⟨h2.1, h2.2, no_slash_of_mem_splitSlash s.toList seg h1.1⟩

theorem printPath_ne_empty (p : PyPath) (hp : validPath p) : printPath p ≠ "" := by
  have key : (printPath p).toList ≠ [] := by
    rw [printPath]
    by_cases habs : p.absolute = true
    · rw [if_pos habs]
      simp [String.toList]
    · rw [if_neg habs]
      cases hsegs : p.segs with
      | nil => simp [String.toList]
      | cons s rest =>
          simp only [List.isEmpty_cons]
          rw [if_neg (by simp)]
          have hs1 : s ≠ [] := (hp s (hsegs ▸ List.mem_cons_self s rest)).1
          show joinSegs (s :: rest) ≠ []
          cases rest with
          | nil => simpa [joinSegs] using hs1
          | cons s2 r2 =>
              cases s with
              | nil => exact absurd rfl hs1
              | cons c t => simp [joinSegs]
  intro h
  rw [h] at key
  exact key rfl

theorem parsePath_printPath (p : PyPath) (hp : validPath p) :
    parsePath (printPath p) = p := by
  rw [printPath]
  by_cases habs : p.absolute = true
  · simp only [habs, if_true]
    rw [parsePath]
    have htl : (String.mk ('/' :: joinSegs p.segs)).toList = '/' :: joinSegs p.segs := rfl
    rw [htl]
    have hsplit : splitSlash ('/' :: joinSegs p.segs) = [] :: splitSlash (joinSegs p.segs) := by
      simp [splitSlash]
    rw [hsplit, List.filter_cons]
    simp only [decide_eq_true_eq, ne_eq, not_true_eq_false, false_and, if_false]
    rw [filter_splitSlash_joinSegs p.segs hp]
    cases p with
    | mk abs segs => simp_all
  · simp only [habs, if_neg, not_false_iff, Bool.not_eq_true]
    have habs2 : p.absolute = false := by
      cases habs3 : p.absolute with
      | true => exact absurd habs3 habs
      | false => rfl
    cases hsegs : p.segs with
    | nil =>
        simp only [List.isEmpty_nil, if_true]
        rw [parsePath]
        cases p with
        | mk abs segs =>
            simp only at hsegs habs2
            subst hsegs habs2
            simp [splitSlash]
    | cons s rest =>
        simp only [List.isEmpty_cons, Bool.false_eq_true, if_neg, not_false_iff]
        rw [parsePath]
        have hs := hp s (hsegs ▸ List.mem_cons_self s rest)
        have htl : (String.mk (joinSegs (s :: rest))).toList = joinSegs (s :: rest) := rfl
        have hall : ∀ x ∈ p.segs, validSeg x := hp
        rw [hsegs] at hall
        cases p with
        | mk abs segs =>
            simp only at hsegs habs2
            subst hsegs habs2
            congr 1
            · rw [htl, head_joinSegs s rest hs.1]
              cases hscons : s with
              | nil => exact absurd hscons hs.1
              | cons c tail =>
                  have hcne : c ≠ '/' := by
                    intro hceq
                    exact hs.2.2 (by simp [hscons, hceq])
                  simp [hcne]
            · rw [htl, filter_splitSlash_joinSegs (s :: rest) hall]

theorem expanduser_props (userHome : List Char → Option PyPath) (home p q : PyPath)
    (hhabs : home.absolute = true) (hhv : validPath home)
    (hdb : ∀ u h, userHome u = some h → h.absolute = true ∧ validPath h)
    (hp : validPath p)
    (hq : expanduser userHome home p = some q) :
    validPath q ∧ expanduser userHome home q = some q := by
  rw [expanduser] at hq
  by_cases habs : p.absolute = true
  · rw [if_pos habs] at hq
    obtain rfl : p = q := Option.some.inj hq
    exact ⟨hp, by rw [expanduser, if_pos habs]⟩
  · rw [if_neg habs] at hq
    split at hq
    · next hsegs =>
        obtain rfl : p = q := Option.some.inj hq
        refine ⟨hp, ?_⟩
        rw [expanduser, if_neg habs, hsegs]
    · next rest hsegs =>
        obtain rfl : p = q := Option.some.inj hq
        refine ⟨hp, ?_⟩
        rw [expanduser, if_neg habs, hsegs]
    · next c tail rest hsegs =>
        by_cases hc : c = '~'
        · rw [if_pos hc] at hq
          by_cases ht : tail.isEmpty
          · rw [if_pos ht] at hq
            have hqe : (⟨home.absolute, home.segs ++ rest⟩ : PyPath) = q :=
              Option.some.inj hq
            constructor
            · intro x hx
              rw [← hqe] at hx
              simp only at hx
              rcases List.mem_append.mp hx with h1 | h1
              · exact hhv x h1
              · exact hp x (hsegs ▸ List.mem_cons_of_mem _ h1)
            · have hqabs : q.absolute = true := by
                rw [← hqe]
                exact hhabs
              rw [expanduser, if_pos hqabs]
          · rw [if_neg ht] at hq
            cases hdbu : userHome tail with
            | none => rw [hdbu] at hq; exact absurd hq (by simp)
            | some h =>
                rw [hdbu] at hq
                have hqe : (⟨h.absolute, h.segs ++ rest⟩ : PyPath) = q :=
                  Option.some.inj hq
                obtain ⟨hhabs2, hhv2⟩ := hdb tail h hdbu
                constructor
                · intro x hx
                  rw [← hqe] at hx
                  simp only at hx
                  rcases List.mem_append.mp hx with h1 | h1
                  · exact hhv2 x h1
                  · exact hp x (hsegs ▸ List.mem_cons_of_mem _ h1)
                · have hqabs : q.absolute = true := by
                    rw [← hqe]
                    exact hhabs2
                  rw [expanduser, if_pos hqabs]
        · rw [if_neg hc] at hq
          obtain rfl : p = q := Option.some.inj hq
          refine ⟨hp, ?_⟩
          rw [expanduser, if_neg habs, hsegs]
          simp [hc]

/-- C9: a successful save_recipes_dir followed by a fresh load_recipes_dir
(the config file re-read as after a process restart) returns exactly the
resolved directory that the save returned, for every home directory that is
absolute and every user database whose entries are absolute. -/
theorem config_save_load_roundtrip (userHome : List Char → Option PyPath)
    (home : PyPath) (directory : String) (outputsExists : Bool)
    (hhabs : home.absolute = true) (hhv : validPath home)
    (hdb : ∀ u h, userHome u = some h → h.absolute = true ∧ validPath h)
    (p : PyPath) (cfg : Option String)
    (hsave : save_recipes_dir userHome home directory = some (p, cfg)) :
    load_recipes_dir userHome home cfg outputsExists = p := by
  cases hexp : expanduser userHome home (parsePath directory) with
  | none =>
      rw [save_recipes_dir, hexp] at hsave
      exact absurd hsave (by simp)
  | some q =>
      rw [save_recipes_dir, hexp] at hsave
      simp only [Option.some.injEq, Prod.mk.injEq] at hsave
      obtain ⟨rfl, rfl⟩ := hsave
      have hprops := expanduser_props userHome home (parsePath directory) q hhabs hhv hdb
        (validPath_parsePath directory) hexp
      simp only [load_recipes_dir]
      rw [if_pos (printPath_ne_empty q hprops.1)]
      rw [parsePath_printPath q hprops.1, hprops.2]

/-- Concrete home directory for the round-trip witness. -/
def sampleHome : PyPath :=
  { absolute := true, segs := ["home".toList, "user".toList] }

/-- Concrete user database with no named users. -/
def sampleUserDb : List Char → Option PyPath := fun _ => none

/-- Witness: saving the tilde-relative directory and reloading from the
written config returns the same resolved absolute path. -/
theorem config_save_load_roundtrip_witness :
    (sampleHome.absolute = true
      ∧ validPath sampleHome
      ∧ save_recipes_dir sampleUserDb sampleHome "~/recipes" =
          some ({ absolute := true,
                  segs := ["home".toList, "user".toList, "recipes".toList] },
                some "/home/user/recipes"))
    ∧ load_recipes_dir sampleUserDb sampleHome (some "/home/user/recipes") false =
        { absolute := true, segs := ["home".toList, "user".toList, "recipes".toList] } := by
  refine ⟨⟨rfl, by decide, by decide⟩, ?_⟩
  exact config_save_load_roundtrip sampleUserDb sampleHome "~/recipes" false rfl (by decide)
    (fun u h hh => absurd hh (by simp [sampleUserDb]))
    { absolute := true, segs := ["home".toList, "user".toList, "recipes".toList] }
    (some "/home/user/recipes") (by decide)

/-! # list_saved_recipes (tools.py) -/

/-- One entry of the recipes root as seen by iterdir: its name, whether it
is a directory, and the file names inside it (meaningful for
directories). -/
structure DirEntry where
  name : String
  isDir : Bool
  files : List String
deriving Repr, DecidableEq

/-- The recipes root: whether the directory exists, and its entries. -/
structure RecipesRoot where
  rootExists : Bool
  entries : List DirEntry
deriving Repr, DecidableEq

/-- Outcome of the list_saved_recipes branch: the missing-directory message,
the no-recipes message, or the grouped listing of category names with their
document counts and the total.  File sizes and modification times decorate
the listing text only and are not modelled. -/
inductive ListRecipesOutcome where
  | noDirectory
  | noRecipes
  | listing (categories : List (String × Nat)) (total : Nat)
deriving Repr, DecidableEq

/-- The expression sorted(category_dir.glob("*.pdf")): names ending in
.pdf, in sorted order (pathlib glob does not exclude dotfiles). -/
def pdfGlob (files : List String) : List String :=
  sortStrings (files.filter (fun f => pyEndsWith f ".pdf"))

/-- The list_saved_recipes branch of handle_local_tool: when the root does
not exist, the distinct no-directory message is returned; otherwise the
sorted entries are scanned, non-hidden directories holding at least one pdf
contribute a group, and a zero total yields the distinct no-recipes
message. -/
def list_saved_recipes (fs : RecipesRoot) : ListRecipesOutcome :=
  if !fs.rootExists then .noDirectory
  else
    let cats := (sortBy (fun a b => strLe a.name b.name) fs.entries).filterMap
      (fun d =>
        if d.isDir && !pyStartsWith d.name "." then
          if (pdfGlob d.files).isEmpty then none
          else some (d.name, (pdfGlob d.files).length)
        else none)
    let total := (cats.map Prod.snd).sum
    if total = 0 then .noRecipes else .listing cats total

/-- C10: listing recipes over a root that does not exist or is empty yields
one of the two distinct no-recipes signals (the no-directory message or the
no-saved-recipes message), never a listing; the branch is total, so no
exception can reach the error path of the dispatcher. -/
theorem list_saved_recipes_empty_root (fs : RecipesRoot)
    (h : fs.rootExists = false ∨ fs.entries = []) :
    list_saved_recipes fs = .noDirectory ∨ list_saved_recipes fs = .noRecipes := by
  cases hr : fs.rootExists with
  | false =>
      left
      simp [list_saved_recipes, hr]
  | true =>
      rcases h with h | h
      · rw [hr] at h
        exact absurd h (by simp)
      · right
        simp [list_saved_recipes, hr, h, sortBy]

/-- Witness instantiating the listing theorem on a missing root and on an
existing empty root. -/
theorem list_saved_recipes_empty_root_witness :
    ((⟨false, []⟩ : RecipesRoot).rootExists = false
      ∧ (list_saved_recipes ⟨false, []⟩ = .noDirectory
        ∨ list_saved_recipes ⟨false, []⟩ = .noRecipes))
    ∧ ((⟨true, []⟩ : RecipesRoot).entries = []
      ∧ (list_saved_recipes ⟨true, []⟩ = .noDirectory
        ∨ list_saved_recipes ⟨true, []⟩ = .noRecipes)) := by
  constructor
  · exact ⟨rfl, list_saved_recipes_empty_root ⟨false, []⟩ (Or.inl rfl)⟩
  · exact ⟨rfl, list_saved_recipes_empty_root ⟨true, []⟩ (Or.inr rfl)⟩

end MealDB
